import Mathlib

/-!
Verification of the Ubuntu-Image-Fetcher core (src/pythonLibraries.py).

The Python class UbuntuImageFetcher is shallowly embedded here:
  * pure helpers (get_safe_filename, _get_extension_from_content_type,
    get_unique_filename, validate_image_response) become Lean functions;
  * the standard-library calls they make (urllib.parse.urlparse and unquote,
    os.path.basename, pathlib stem/suffix, str.strip, str.lower, int())
    are modelled at their documented interface, matching CPython 3.11;
  * the stateful pipeline (fetch_single_image, fetch_images) becomes explicit
    state passing over a record holding the run-scoped dedupe index and the
    set of files written to the output directory, with the network and the
    disk-write outcome supplied as explicit environment inputs;
  * Python exceptions become Except / Option values, and the try/except
    boundary of fetch_single_image becomes a total function into an outcome
    type that records which handler fired.
-/

namespace ImageFetcher

/-! ## Python string primitives -/

/-- The six ASCII whitespace characters stripped by Python str.strip()
and accepted around int() literals: space, tab, LF, CR, VT, FF. -/
def isPyWS (c : Char) : Bool :=
  c == ' ' || c == '\t' || c == '\n' || c == '\x0d' || c == '\x0b' || c == '\x0c'

/-- Python str.strip() with no argument (ASCII fragment; the URLs and headers
this program strips are ASCII). -/
def pyStrip (s : String) : String :=
  ⟨((s.data.dropWhile isPyWS).reverse.dropWhile isPyWS).reverse⟩

/-- Python str.lower() (ASCII fragment: Char.toLower lowers exactly the
ASCII uppercase letters, which covers the scheme and content-type strings
this program lowers). -/
def pyLower (s : String) : String :=
  ⟨s.data.map Char.toLower⟩

/-- Python str.startswith, on explicit character lists. -/
def isPre : List Char → List Char → Bool
  | [], _ => true
  | _ :: _, [] => false
  | a :: as, b :: bs => a == b && isPre as bs

/-- Membership test used to model the Python expression `c in s`
for a one-character c. -/
def charIn (c : Char) (l : List Char) : Bool := l.contains c

/-! ## Decimal numerals: the model of Python str(n) for a nonnegative int -/

/-- Digit characters of the decimal numeral of n, most significant first,
with the recursion depth made explicit as fuel so that the definition is
structural and computes inside the kernel; natDecDigits supplies ample
fuel. -/
def natDecAux : Nat → Nat → List Char
  | 0, _ => []
  | fuel + 1, n =>
    if n < 10 then [Nat.digitChar n]
    else natDecAux fuel (n / 10) ++ [Nat.digitChar (n % 10)]

/-- Digit characters of the decimal numeral of n, most significant first,
as produced by Python str() on a nonnegative int. -/
def natDecDigits (n : Nat) : List Char := natDecAux (n + 1) n

/-- Python str(n) for a nonnegative int n. -/
def natDec (n : Nat) : String := ⟨natDecDigits n⟩

/-- Value of a digit string read back, most significant first. -/
def decVal (l : List Char) : Nat :=
  l.foldl (fun a c => 10 * a + (c.toNat - 48)) 0

theorem decVal_append_digit (l : List Char) (c : Char) :
    decVal (l ++ [c]) = 10 * decVal l + (c.toNat - 48) := by
  simp [decVal, List.foldl_append]

theorem digitChar_val : ∀ d : Nat, d < 10 → (Nat.digitChar d).toNat - 48 = d := by
  decide

theorem decVal_natDecAux :
    ∀ fuel n : Nat, n < fuel → decVal (natDecAux fuel n) = n := by
  intro fuel
  induction fuel with
  | zero => intro n h; omega
  | succ fuel ih =>
    intro n h
    rw [natDecAux]
    by_cases h10 : n < 10
    · simp only [h10, if_true]
      simpa [decVal] using digitChar_val n h10
    · simp only [h10, if_false]
      have hlt : n / 10 < fuel := by
        have := Nat.div_lt_self (n := n) (by omega) (by omega : 1 < 10)
        omega
      rw [decVal_append_digit, ih (n / 10) hlt,
        digitChar_val (n % 10) (Nat.mod_lt _ (by omega))]
      omega

theorem decVal_natDecDigits (n : Nat) : decVal (natDecDigits n) = n :=
  decVal_natDecAux (n + 1) n (Nat.lt_succ_self n)

theorem natDecDigits_inj {a b : Nat} (h : natDecDigits a = natDecDigits b) : a = b := by
  have := decVal_natDecDigits a
  rw [h, decVal_natDecDigits b] at this
  omega

theorem string_mk_inj {l m : List Char} (h : String.mk l = String.mk m) : l = m :=
  congrArg String.data h

theorem natDec_inj {a b : Nat} (h : natDec a = natDec b) : a = b :=
  natDecDigits_inj (string_mk_inj h)

/-! ## Interface model of urllib.parse (CPython 3.11)

Only the pieces the program consumes are modelled: the path component
produced by urlparse (including the params split), the ValueError raised
for netlocs with unmatched or invalid brackets, os.path.basename (POSIX),
and unquote with encoding utf-8 and errors replace. -/

/-- Split a list at the first character satisfying p: the part before, and
(when the character occurs) the part after it. -/
def splitAtFirst (p : Char → Bool) : List Char → List Char × Option (List Char)
  | [] => ([], none)
  | c :: cs =>
    if p c then ([], some cs)
    else
      let r := splitAtFirst p cs
      (c :: r.1, r.2)

/-- Split into groups at every occurrence of sep, like Python str.split(sep). -/
def splitOnChar (sep : Char) : List Char → List (List Char)
  | [] => [[]]
  | c :: cs =>
    if c == sep then [] :: splitOnChar sep cs
    else
      match splitOnChar sep cs with
      | [] => [[c]]
      | g :: gs => (c :: g) :: gs

/-- Characters allowed in a URL scheme after the first letter. -/
def schemeChar (c : Char) : Bool :=
  c.isAlpha || c.isDigit || c == '+' || c == '-' || c == '.'

/-- WHATWG C0-control-or-space class, stripped from the front of a URL. -/
def whatwgC0OrSpace (c : Char) : Bool := c.toNat ≤ 0x20

def hexDigit (c : Char) : Bool :=
  c.isDigit || ('a' ≤ c && c ≤ 'f') || ('A' ≤ c && c ≤ 'F')

/-- One dotted-quad octet as accepted by the ipaddress module: 1-3 digits,
value at most 255, no leading zero. -/
def ipv4Octet (g : List Char) : Bool :=
  !g.isEmpty && decide (g.length ≤ 3) && g.all Char.isDigit &&
    decide (decVal g ≤ 255) && (g.length == 1 || !(g.headD '0' == '0'))

def ipv4Valid (l : List Char) : Bool :=
  let gs := splitOnChar '.' l
  gs.length == 4 && gs.all ipv4Octet

/-- One 16-bit hextet of an IPv6 address: 1-4 hex digits. -/
def hexGroupOk (g : List Char) : Bool :=
  !g.isEmpty && decide (g.length ≤ 4) && g.all hexDigit

/-- Split at the first occurrence of a double colon, when present. -/
def splitDoubleColon : List Char → Option (List Char × List Char)
  | [] => none
  | ':' :: ':' :: rest => some ([], rest)
  | c :: cs => (splitDoubleColon cs).map (fun r => (c :: r.1, r.2))

/-- IPv6 textual form without a double colon: eight hextets, or six hextets
followed by a dotted quad. -/
def ipv6NoPair (addr : List Char) : Bool :=
  let gs := splitOnChar ':' addr
  (gs.length == 8 && gs.all hexGroupOk)
  || (gs.length == 7 && (gs.take 6).all hexGroupOk && ipv4Valid (gs.getLastD []))

/-- IPv6 textual form around one double colon. -/
def ipv6WithPair (L R : List Char) : Bool :=
  (splitDoubleColon R).isNone &&
  (let ls := if L.isEmpty then [] else splitOnChar ':' L
   let rs := if R.isEmpty then [] else splitOnChar ':' R
   ls.all hexGroupOk &&
   (match rs.getLast? with
    | none => decide (ls.length ≤ 7)
    | some last =>
      (rs.all hexGroupOk && decide (ls.length + rs.length ≤ 7))
      || (rs.dropLast.all hexGroupOk && ipv4Valid last &&
            decide (ls.length + rs.length + 1 ≤ 7))))

/-- IPv6 address, optionally with a nonempty percent-delimited zone id. -/
def ipv6Valid (addrFull : List Char) : Bool :=
  let az := splitAtFirst (· == '%') addrFull
  (match az.2 with
   | none => true
   | some z => !z.isEmpty && !z.contains '%') &&
  (match splitDoubleColon az.1 with
   | none => ipv6NoPair az.1
   | some r => ipv6WithPair r.1 r.2)

/-- Model of urllib.parse._check_bracketed_host: the text between brackets
must be an IPvFuture literal (v, hex digits, dot, nonempty tail) or an IPv6
address; anything else (including an IPv4 address) raises ValueError. -/
def bracketedHostOk : List Char → Bool
  | 'v' :: rest =>
    let hx := rest.takeWhile hexDigit
    let tl := rest.dropWhile hexDigit
    !hx.isEmpty &&
      (match tl with
       | '.' :: after => !after.isEmpty
       | _ => false)
  | h => ipv6Valid h

/-- Model of urllib.parse.urlsplit restricted to what the program reads:
the (lowercased) scheme and the path. Returns none where CPython raises
ValueError (unmatched brackets in the netloc, or a bracketed host that is
neither IPv6 nor IPvFuture). Follows CPython 3.11: the url is first
lstripped of C0 controls and spaces and cleansed of tab, CR and LF; the
scheme is recognised only when the text before the first colon starts with
an ASCII letter and uses scheme characters only; a leading double slash
delimits the netloc up to the next slash, question mark or hash; the
fragment is split at the first hash, then the query at the first question
mark. -/
def urlsplit_scheme_path (url : String) : Option (String × List Char) :=
  let u0 := (url.data.dropWhile whatwgC0OrSpace).filter
    (fun c => !(c == '\t' || c == '\n' || c == '\x0d'))
  let sr := splitAtFirst (· == ':') u0
  let schemeFound : Bool :=
    match sr.2 with
    | some _ => !sr.1.isEmpty && (sr.1.headD ' ').isAlpha && sr.1.all schemeChar
    | none => false
  let scheme : String := if schemeFound then pyLower ⟨sr.1⟩ else ""
  let u1 : List Char := if schemeFound then (sr.2.getD []) else u0
  let netlocRest : Option (List Char) :=
    match u1 with
    | '/' :: '/' :: rest =>
      let nd := fun c => !(c == '/' || c == '?' || c == '#')
      let netloc := rest.takeWhile nd
      let rest2 := rest.dropWhile nd
      if (netloc.contains '[' && !netloc.contains ']')
          || (netloc.contains ']' && !netloc.contains '[') then none
      else if netloc.contains '[' && netloc.contains ']' then
        let bh := ((netloc.dropWhile (fun c => !(c == '['))).drop 1).takeWhile
          (fun c => !(c == ']'))
        if bracketedHostOk bh then some rest2 else none
      else some rest2
    | _ => some u1
  match netlocRest with
  | none => none
  | some u2 =>
    let u3 := (splitAtFirst (· == '#') u2).1
    let u4 := (splitAtFirst (· == '?') u3).1
    some (scheme, u4)

/-- The schemes for which urlparse splits params off the path. -/
def uses_params : List String :=
  ["", "ftp", "hdl", "prospero", "http", "imap", "https", "shttp", "rtsp",
   "rtspu", "sip", "sips", "mms", "sftp", "tel"]

/-- Model of urllib.parse._splitparams applied to a path: drop everything
from the first semicolon of the last slash-separated segment (when the path
has a slash, the semicolon must come after the last slash). -/
def splitparams (p : List Char) : List Char :=
  if p.contains '/' then
    let seg := (p.reverse.takeWhile (fun c => !(c == '/'))).reverse
    match splitAtFirst (· == ';') seg with
    | (_, none) => p
    | (beforeSemi, some _) => p.take (p.length - seg.length) ++ beforeSemi
  else (splitAtFirst (· == ';') p).1

/-- Model of urlparse(url).path: urlsplit, then the params split for the
schemes that use params. Returns none where urlparse raises ValueError. -/
def urlparse_path (url : String) : Option (List Char) :=
  match urlsplit_scheme_path url with
  | none => none
  | some sp =>
    if decide (sp.1 ∈ uses_params) && sp.2.contains ';' then some (splitparams sp.2)
    else some sp.2

/-- Model of os.path.basename on POSIX: the text after the last slash. -/
def basenameL (p : List Char) : List Char :=
  (p.reverse.takeWhile (fun c => !(c == '/'))).reverse

/-! ### unquote: percent-decoding with utf-8 / replace -/

def hexVal? (c : Char) : Option Nat :=
  if c.isDigit then some (c.toNat - 48)
  else if 'a' ≤ c && c ≤ 'f' then some (c.toNat - 87)
  else if 'A' ≤ c && c ≤ 'F' then some (c.toNat - 55)
  else none

/-- Percent-decode an ASCII run to bytes: a percent sign followed by two hex
digits becomes one byte, any other character becomes its own code. -/
def pctAux : Nat → List Char → List Nat
  | 0, _ => []
  | _ + 1, [] => []
  | fuel + 1, c :: rest =>
    if c == '%' then
      match rest with
      | h1 :: h2 :: rest2 =>
        match hexVal? h1, hexVal? h2 with
        | some a, some b => (16 * a + b) :: pctAux fuel rest2
        | _, _ => 37 :: pctAux fuel rest
      | _ => 37 :: pctAux fuel rest
    else c.toNat :: pctAux fuel rest

/-- Percent-decode an ASCII run to bytes, supplying the run length as fuel
(each step consumes at least one character, so the fuel never runs out). -/
def pctBytes (l : List Char) : List Nat := pctAux l.length l

/-- A UTF-8 continuation byte. -/
def utf8Cont (b : Nat) : Bool := 0x80 ≤ b && b ≤ 0xBF

/-- The Unicode replacement character. -/
def fffd : Char := Char.ofNat 0xFFFD

/-- One pass of the UTF-8 decoder, with the number of remaining steps made
explicit as fuel so that the recursion is structural; every step consumes
at least one byte, so utf8Decode supplying the byte count as fuel never
reaches the fuel-exhausted base case on a nonempty list. -/
def utf8Aux : Nat → List Nat → List Char
  | 0, _ => []
  | _ + 1, [] => []
  | fuel + 1, b :: rest =>
    if b < 0x80 then Char.ofNat b :: utf8Aux fuel rest
    else if 0xC2 ≤ b && b ≤ 0xDF then
      match rest with
      | b1 :: rest2 =>
        if utf8Cont b1 then
          Char.ofNat ((b - 0xC0) * 64 + (b1 - 0x80)) :: utf8Aux fuel rest2
        else fffd :: utf8Aux fuel rest
      | [] => [fffd]
    else if 0xE0 ≤ b && b ≤ 0xEF then
      let lo := if b == 0xE0 then 0xA0 else 0x80
      let hi := if b == 0xED then 0x9F else 0xBF
      match rest with
      | b1 :: rest2 =>
        if lo ≤ b1 && b1 ≤ hi then
          match rest2 with
          | b2 :: rest3 =>
            if utf8Cont b2 then
              Char.ofNat ((b - 0xE0) * 4096 + (b1 - 0x80) * 64 + (b2 - 0x80))
                :: utf8Aux fuel rest3
            else fffd :: utf8Aux fuel rest2
          | [] => [fffd]
        else fffd :: utf8Aux fuel rest
      | [] => [fffd]
    else if 0xF0 ≤ b && b ≤ 0xF4 then
      let lo := if b == 0xF0 then 0x90 else 0x80
      let hi := if b == 0xF4 then 0x8F else 0xBF
      match rest with
      | b1 :: rest2 =>
        if lo ≤ b1 && b1 ≤ hi then
          match rest2 with
          | b2 :: rest3 =>
            if utf8Cont b2 then
              match rest3 with
              | b3 :: rest4 =>
                if utf8Cont b3 then
                  Char.ofNat ((b - 0xF0) * 262144 + (b1 - 0x80) * 4096
                    + (b2 - 0x80) * 64 + (b3 - 0x80)) :: utf8Aux fuel rest4
                else fffd :: utf8Aux fuel rest3
              | [] => [fffd]
            else fffd :: utf8Aux fuel rest2
          | [] => [fffd]
        else fffd :: utf8Aux fuel rest
      | [] => [fffd]
    else fffd :: utf8Aux fuel rest

/-- UTF-8 decoding with the replace error handler, as CPython performs it:
each maximal valid prefix of an ill-formed sequence is replaced by one
replacement character. -/
def utf8Decode (l : List Nat) : List Char := utf8Aux l.length l

/-- Model of urllib.parse.unquote with utf-8 / replace, processing the text
character by character: pend accumulates the current ASCII run in reverse;
at its end (a character outside ASCII, or the end of the text) the run is
percent-decoded to bytes and UTF-8 decoded, and the non-ASCII character, if
any, passes through unchanged. -/
def unquoteAux (pend : List Char) : List Char → List Char
  | [] => utf8Decode (pctBytes pend.reverse)
  | c :: cs =>
    if c.toNat ≤ 0x7F then unquoteAux (c :: pend) cs
    else utf8Decode (pctBytes pend.reverse) ++ c :: unquoteAux [] cs

/-- Model of urllib.parse.unquote with utf-8 / replace: maximal ASCII runs
are percent-decoded to bytes and UTF-8 decoded; characters outside ASCII
pass through unchanged. -/
def unquoteL (l : List Char) : List Char := unquoteAux [] l

/-! ## UbuntuImageFetcher: pure helpers (src/pythonLibraries.py) -/

/-- The fixed allow-list of source line 35. -/
def safe_chars : List Char :=
  "abcdefghijklmnopqrstuvwxyzABCDEFGHIJKLMNOPQRSTUVWXYZ0123456789.-_".data

/-- Source line 36: every character outside the allow-list becomes an
underscore. -/
def sanitizeL (l : List Char) : List Char :=
  l.map (fun c => if charIn c safe_chars then c else '_')

/-- _get_extension_from_content_type (source lines 40-55): empty or absent
content type gives .jpg, otherwise the lowercased value is looked up in the
fixed table with default .jpg. -/
def _get_extension_from_content_type (content_type : Option String) : String :=
  match content_type with
  | none => ".jpg"
  | some s =>
    if s = "" then ".jpg"
    else if pyLower s = "image/jpeg" then ".jpg"
    else if pyLower s = "image/png" then ".png"
    else if pyLower s = "image/gif" then ".gif"
    else if pyLower s = "image/webp" then ".webp"
    else if pyLower s = "image/bmp" then ".bmp"
    else if pyLower s = "image/svg+xml" then ".svg"
    else ".jpg"

/-- The candidate filename of source line 27: unquote applied to the
basename of the parsed path, when urlparse does not raise. -/
def url_candidate (url : String) : Option (List Char) :=
  match urlparse_path url with
  | none => none
  | some p => some (unquoteL (basenameL p))

/-- get_safe_filename (source lines 22-38). Returns none exactly where the
Python function propagates the ValueError urlparse raises on malformed
netloc brackets; otherwise: candidate from the URL path, fallback to
downloaded_image plus an inferred extension when the candidate is empty or
has no dot, then the allow-list sanitization. -/
def get_safe_filename (url : String) (content_type : Option String) :
    Option String :=
  match url_candidate url with
  | none => none
  | some cand =>
    let filename :=
      if cand.isEmpty || !cand.contains '.' then
        ("downloaded_image" ++ _get_extension_from_content_type content_type).data
      else cand
    some ⟨sanitizeL filename⟩

/-! ## pathlib stem and suffix, and get_unique_filename -/

/-- Index of the last dot of a name, when it has one. -/
def lastDotIdx? (l : List Char) : Option Nat :=
  match splitAtFirst (· == '.') l.reverse with
  | (_, none) => none
  | (revAfter, some _) => some (l.length - 1 - revAfter.length)

/-- pathlib suffix of a plain entry name: the part from the last dot on,
provided that dot is neither the first nor the last character. -/
def pathSuffix (l : List Char) : List Char :=
  match lastDotIdx? l with
  | none => []
  | some i => if 0 < i ∧ i < l.length - 1 then l.drop i else []

/-- pathlib stem of a plain entry name: the part before the suffix. -/
def pathStem (l : List Char) : List Char :=
  match lastDotIdx? l with
  | none => l
  | some i => if 0 < i ∧ i < l.length - 1 then l.take i else l

/-- The probe name of source line 72: stem, underscore, counter, suffix. -/
def mkProbe (stem sfx : List Char) (k : Nat) : String :=
  ⟨stem ++ '_' :: natDecDigits k ++ sfx⟩

/-- The while-True loop of source lines 71-76, with the number of remaining
iterations made explicit as fuel; none models a run that exhausts the fuel
without finding a free name. Theorem c7_loop_terminates shows fuel
names.length + 1 always suffices, so the none case is unreachable from
get_unique_filename. -/
def uniqueLoop (names : List String) (stem sfx : List Char) :
    Nat → Nat → Option String
  | _, 0 => none
  | counter, fuel + 1 =>
    let new_filename := mkProbe stem sfx counter
    if new_filename ∈ names then uniqueLoop names stem sfx (counter + 1) fuel
    else some new_filename

/-- get_unique_filename (source lines 57-76) over an abstract directory,
modelled as the list of the plain entry names it contains (a file exists
iff its name is in the list; the pathlib link components dot and dot-dot
are outside this abstraction). If the candidate is free it is returned
unchanged, otherwise the loop probes stem_1.ext, stem_2.ext, ... -/
def get_unique_filename (names : List String) (filename : String) :
    Option String :=
  if filename ∈ names then
    uniqueLoop names (pathStem filename.data) (pathSuffix filename.data)
      1 (names.length + 1)
  else some filename

/-! ## Python int() and validate_image_response -/

/-- No two adjacent underscores. -/
def noDoubleUnderscore : List Char → Bool
  | [] => true
  | [_] => true
  | a :: b :: rest =>
    !(a == '_' && b == '_') && noDoubleUnderscore (b :: rest)

/-- The digit part of a Python int literal: nonempty digits with optional
single underscores between them. -/
def pyDigits? (l : List Char) : Option Nat :=
  if !l.isEmpty && l.all (fun c => c.isDigit || c == '_')
      && !(l.headD '_' == '_') && !(l.getLastD '_' == '_')
      && noDoubleUnderscore l then
    some (decVal (l.filter (fun c => !(c == '_'))))
  else none

/-- Model of Python int(str): optional surrounding whitespace, optional
sign, then a decimal literal; none models the ValueError int raises
otherwise. -/
def pyInt? (s : String) : Option Int :=
  let t := (s.data.dropWhile isPyWS).reverse.dropWhile isPyWS |>.reverse
  match t with
  | '+' :: rest => (pyDigits? rest).map (fun n => (n : Int))
  | '-' :: rest => (pyDigits? rest).map (fun n => -(n : Int))
  | rest => (pyDigits? rest).map (fun n => (n : Int))

/-- The fixed 50 MiB ceiling of source line 15. -/
def max_file_size : Nat := 50 * 1024 * 1024

/-- The distinct ValueError raises of validate_image_response, plus the
ValueError int() itself raises on a malformed Content-Length value. -/
inductive ValidationError where
  | invalidContentType
  | payloadTooLarge
  | malformedContentLength
deriving DecidableEq, Repr

instance : DecidableEq (Except ValidationError String) := fun
  | .error a, .error b =>
    if h : a = b then isTrue (by rw [h])
    else isFalse (fun he => h (by cases he; rfl))
  | .error _, .ok _ => isFalse (fun he => Except.noConfusion he)
  | .ok _, .error _ => isFalse (fun he => Except.noConfusion he)
  | .ok a, .ok b =>
    if h : a = b then isTrue (by rw [h])
    else isFalse (fun he => h (by cases he; rfl))

/-- validate_image_response (source lines 98-113), over the two header
values it reads (none models an absent header). The lowercased
content-type must start with image/; then a present, nonempty (Python
truthiness) content-length is converted with int() and compared against
the ceiling. On success the lowercased content-type is returned. -/
def validate_image_response (contentType? contentLength? : Option String) :
    Except ValidationError String :=
  let content_type := pyLower (contentType?.getD "")
  if !isPre "image/".data content_type.data then
    .error .invalidContentType
  else
    match contentLength? with
    | none => .ok content_type
    | some cl =>
      if cl = "" then .ok content_type
      else
        match pyInt? cl with
        | none => .error .malformedContentLength
        | some v =>
          if v > (max_file_size : Int) then .error .payloadTooLarge
          else .ok content_type

/-! ## The stateful per-URL pipeline

The run-scoped mutable state of a UbuntuImageFetcher instance is the
downloaded_hashes dict (modelled as an association list in insertion
order; the program only ever inserts absent keys, so list lookup agrees
with dict lookup) and the output directory (modelled as the list of files
written, name and content, in creation order). The network is an explicit
input: the outcome of requests.get for the URL. The outcome of the disk
write (the open/write calls can raise OSError, caught by the blanket
except Exception handler) is a second explicit input. The SHA-256 digest
function of hashlib is an explicit parameter hash of every stateful
definition: the program uses it only as an opaque map from payload bytes
to digest strings. -/

structure FState where
  downloaded_hashes : List (String × String)
  files : List (String × List Nat)
deriving DecidableEq, Repr

/-- Dict lookup over the association list. -/
def lookupHash (idx : List (String × String)) (h : String) : Option String :=
  (idx.find? (fun p => p.1 == h)).map (fun p => p.2)

/-- calculate_file_hash (source lines 78-82) is the parameter hash applied
to the payload; is_duplicate_content (source lines 84-96): on a hit, report
true together with the existing filename the program prints, leaving the
state unchanged; on a miss, record the digest with the offered filename and
report false. -/
def is_duplicate_content (hash : List Nat → String) (st : FState)
    (content : List Nat) (filename : String) :
    (Bool × Option String) × FState :=
  let file_hash := hash content
  match lookupHash st.downloaded_hashes file_hash with
  | some existing_file => ((true, some existing_file), st)
  | none =>
    ((false, none),
      { st with downloaded_hashes :=
          st.downloaded_hashes ++ [(file_hash, filename)] })

/-- The outcome of requests.get for one URL: a timeout, a transport
failure, or a response with its status code, the two header values the
program reads, and the payload bytes. -/
inductive Resp where
  | timeout
  | connError
  | ok (status : Nat) (contentType? contentLength? : Option String)
      (body : List Nat)
deriving DecidableEq, Repr

/-- Which print-and-return-False handler of fetch_single_image fired, or
which success path ran. saved carries the two names the success prints
show: the candidate filename and the name actually written. duplicate
carries the recorded filename the duplicate message prints. -/
inductive Outcome where
  | saved (filename : String) (savedAs : String)
  | duplicate (existing : String)
  | timeoutErr
  | connErr
  | httpErr (status : Nat)
  | valueErr
  | unexpectedErr
deriving DecidableEq, Repr

/-- The boolean fetch_single_image returns: True exactly on the saved path. -/
def outcomeSuccess : Outcome → Bool
  | .saved _ _ => true
  | _ => false

/-- The environment's verdict on the disk-write step of source lines
144-145, `with open(filepath, 'wb') as f: f.write(content)`:
either open itself raises (no file appears), or open succeeds — creating
the file — and the write then raises after n bytes (a possibly partial
file remains on disk), or both calls succeed. -/
inductive DiskOutcome where
  | openError
  | writeError (n : Nat)
  | ok
deriving DecidableEq, Repr

/-- fetch_single_image (source lines 115-175) as a total function: the
try body in order (requests.get, raise_for_status on a 4xx or 5xx status,
validate_image_response, get_safe_filename, response.content,
is_duplicate_content, get_unique_filename, the disk write), with every
exception routed to the handler that catches it in the source: Timeout,
ConnectionError, HTTPError, ValueError (validation failures, a malformed
Content-Length, and the urlparse bracket error), and the blanket Exception
handler for the disk step (an open that raises leaves no file; a write
that raises after open leaves the created file with the bytes written so
far). The fuel-exhausted branch of uniqueLoop is also routed to the
blanket handler; theorem c7_loop_terminates shows it is unreachable. -/
def fetch_single_image (hash : List Nat → String) (url : String)
    (resp : Resp) (disk : DiskOutcome) (st : FState) : Outcome × FState :=
  match resp with
  | .timeout => (.timeoutErr, st)
  | .connError => (.connErr, st)
  | .ok status contentType? contentLength? body =>
    if 400 ≤ status ∧ status < 600 then (.httpErr status, st)
    else
      match validate_image_response contentType? contentLength? with
      | .error _ => (.valueErr, st)
      | .ok content_type =>
        match get_safe_filename url (some content_type) with
        | none => (.valueErr, st)
        | some filename =>
          let content := body
          let dup := is_duplicate_content hash st content filename
          if dup.1.1 then (.duplicate (dup.1.2.getD ""), dup.2)
          else
            match get_unique_filename (dup.2.files.map (fun f => f.1))
                filename with
            | none => (.unexpectedErr, dup.2)
            | some unique_filename =>
              match disk with
              | .ok =>
                (.saved filename unique_filename,
                  { dup.2 with files := dup.2.files ++ [(unique_filename, content)] })
              | .openError => (.unexpectedErr, dup.2)
              | .writeError n =>
                (.unexpectedErr,
                  { dup.2 with files :=
                      dup.2.files ++ [(unique_filename, content.take n)] })

/-- One step of the fetch_images loop body (source lines 187-191): strip
the url, skip it when empty, otherwise run fetch_single_image and count a
success. The accumulator carries the success count, the state, and the
number of fetch_single_image invocations (the network attempts), the last
recorded for specification purposes. -/
def fetchStep (hash : List Nat → String) (net : String → Resp × DiskOutcome)
    (acc : Nat × FState × Nat) (url : String) : Nat × FState × Nat :=
  let u := pyStrip url
  if u = "" then acc
  else
    let r := fetch_single_image hash u (net u).1 (net u).2 acc.2.1
    (acc.1 + (if outcomeSuccess r.1 then 1 else 0), r.2, acc.2.2 + 1)

/-- The url list fetch_images iterates over (source lines 181-182): a
comma-delimited string is split and each piece stripped, a sequence is
taken as given. -/
def inputUrls (input : String ⊕ List String) : List String :=
  match input with
  | .inl s => (splitOnChar ',' s.data).map (fun piece => pyStrip ⟨piece⟩)
  | .inr l => l

/-- fetch_images (source lines 177-193): a comma-delimited string input is
split and each piece stripped; a list input is taken as is; total is the
length of that list; then the loop. Returns the (successful, total) pair
of the source together with the final state and the attempt count. -/
def fetch_images (hash : List Nat → String) (net : String → Resp × DiskOutcome)
    (st : FState) (input : String ⊕ List String) :
    (Nat × Nat) × FState × Nat :=
  let urls := inputUrls input
  let total := urls.length
  let r := urls.foldl (fetchStep hash net) (0, st, 0)
  ((r.1, total), r.2.1, r.2.2)

/-- A whole run as a sequence of fetch_single_image steps, each with its
url, network outcome and disk outcome: the shape of any sequence of
fetches within one run. -/
def runFetches (hash : List Nat → String)
    (steps : List (String × Resp × DiskOutcome)) (st : FState) : FState :=
  steps.foldl (fun s step =>
    (fetch_single_image hash step.1 step.2.1 step.2.2 s).2) st

/-! ## Helper lemmas -/

theorem sanitizeL_all_safe (l : List Char) :
    ∀ c ∈ sanitizeL l, charIn c safe_chars = true := by
  intro c hc
  rcases List.mem_map.mp hc with ⟨a, _, ha⟩
  have hu : charIn '_' safe_chars = true := by decide
  cases hb : charIn a safe_chars with
  | true => rw [← ha]; simp [hb]
  | false => rw [← ha]; simpa [hb] using hu

theorem sanitizeL_id_of_safe (l : List Char)
    (h : ∀ c ∈ l, charIn c safe_chars = true) : sanitizeL l = l := by
  induction l with
  | nil => rfl
  | cons c cs ih =>
    have hc := h c (by simp)
    simp only [sanitizeL, List.map_cons, hc, if_true]
    exact congrArg (c :: ·) (ih (fun x hx => h x (by simp [hx])))

theorem ext_mem (ct : Option String) :
    _get_extension_from_content_type ct ∈
      ([".jpg", ".png", ".gif", ".webp", ".bmp", ".svg"] : List String) := by
  match ct with
  | none => simp [_get_extension_from_content_type]
  | some s =>
    simp only [_get_extension_from_content_type]
    split_ifs <;> simp

theorem data_append (a b : String) : (a ++ b).data = a.data ++ b.data := rfl

theorem ext_all_safe (ct : Option String) :
    ∀ c ∈ (_get_extension_from_content_type ct).data, charIn c safe_chars = true := by
  have h := ext_mem ct
  generalize hE : _get_extension_from_content_type ct = e at h ⊢
  fin_cases h <;> decide

/-! ## Claim theorems -/

/-- C1, counterexample. The sanitized filename can itself be the traversal
sequence dot-dot: the candidate extracted from http://x/.. is .. , which is
nonempty, contains a dot, and consists of allow-list characters only, so it
is returned verbatim. Moreover the operation does not always return: on
http://[ the urlparse call inside get_safe_filename raises ValueError
(Invalid IPv6 URL), modelled by none. -/
theorem c1_counterexample :
    get_safe_filename "http://x/.." none = some ".."
    ∧ get_safe_filename "http://[" none = none := by
  constructor
  · decide
  · decide

/-- C1, amended. Whenever get_safe_filename returns a string (that is,
whenever urlparse does not raise on the URL), every character of the result
is a member of the fixed allow-list, because the join over the candidate
maps every character outside the allow-list to an underscore. (The claims
that no traversal sequence survives and that the operation always returns
fail; see c1_counterexample.) -/
theorem c1_all_chars_in_allow_list (url : String) (ct : Option String)
    (s : String) (h : get_safe_filename url ct = some s) :
    ∀ c ∈ s.data, charIn c safe_chars = true := by
  unfold get_safe_filename at h
  match hu : url_candidate url with
  | none => rw [hu] at h; exact absurd h (by simp)
  | some cand =>
    rw [hu] at h
    simp only [Option.some.injEq] at h
    have hdata : s.data = sanitizeL (if cand.isEmpty || !cand.contains '.' then
        ("downloaded_image" ++ _get_extension_from_content_type ct).data
      else cand) := by rw [← h]
    rw [hdata]
    exact sanitizeL_all_safe _

/-- C1, witness. -/
theorem c1_witness :
    get_safe_filename "http://x/a.png" none = some "a.png"
    ∧ ∀ c ∈ "a.png".data, charIn c safe_chars = true :=
  ⟨by decide, c1_all_chars_in_allow_list "http://x/a.png" none "a.png" (by decide)⟩

/-- C9. When the decoded final path segment (the candidate) is empty or has
no dot, the derived filename is downloaded_image with the extension the
fixed table assigns to the declared content type (the lookup lowercases its
argument, as the source does), and when the content type is absent, empty,
or lowercases to none of the six table keys, that extension is .jpg, giving
downloaded_image.jpg. -/
theorem c9_fallback_filename (url : String) (ct : Option String)
    (cand : List Char) (hc : url_candidate url = some cand)
    (hnone : (cand.isEmpty || !cand.contains '.') = true) :
    get_safe_filename url ct =
      some ("downloaded_image" ++ _get_extension_from_content_type ct)
    ∧ ((∀ s, ct = some s → s ≠ "" →
          pyLower s ∉ (["image/jpeg", "image/png", "image/gif", "image/webp",
            "image/bmp", "image/svg+xml"] : List String)) →
        get_safe_filename url ct = some "downloaded_image.jpg") := by
  have hfix : ∀ e : Option String, get_safe_filename url e =
      some ("downloaded_image" ++ _get_extension_from_content_type e) := by
    intro e
    unfold get_safe_filename
    rw [hc]
    simp only [hnone, if_true, Option.some.injEq]
    apply congrArg String.mk
    apply sanitizeL_id_of_safe
    intro c hmem
    rw [data_append] at hmem
    rcases List.mem_append.mp hmem with hm | hm
    · have hbase : ∀ x ∈ "downloaded_image".data, charIn x safe_chars = true := by decide
      exact hbase c hm
    · exact ext_all_safe e c hm
  refine ⟨hfix ct, fun hmiss => ?_⟩
  have hext : _get_extension_from_content_type ct = ".jpg" := by
    match ct with
    | none => rfl
    | some s =>
      by_cases hse : s = ""
      · simp [_get_extension_from_content_type, hse]
      · have hm := hmiss s rfl hse
        simp only [List.mem_cons, List.not_mem_nil, or_false, not_or] at hm
        obtain ⟨h1, h2, h3, h4, h5, h6⟩ := hm
        simp [_get_extension_from_content_type, hse, h1, h2, h3, h4, h5, h6]
  rw [hfix ct, hext]
  decide

/-- C9, witness: a URL whose path has an empty final segment, with a
recognised and an unrecognised content type. -/
theorem c9_witness :
    get_safe_filename "http://x/" (some "image/png") =
      some ("downloaded_image" ++ _get_extension_from_content_type (some "image/png"))
    ∧ get_safe_filename "http://x/" (some "text/plain") = some "downloaded_image.jpg" :=
  ⟨(c9_fallback_filename "http://x/" (some "image/png") [] (by decide) (by decide)).1,
   (c9_fallback_filename "http://x/" (some "text/plain") [] (by decide) (by decide)).2
     (by intro s hs hne; cases hs; decide)⟩

/-- C5, counterexample. A present but non-integer Content-Length value
makes the operation fail even though the content type is a valid image
type and no size bound is exceeded: int() raises ValueError on the header
value abc, so the claim that validation otherwise succeeds is false. -/
theorem c5_counterexample :
    validate_image_response (some "image/png") (some "abc") =
      .error .malformedContentLength := by
  decide

/-- C5, amended: the exact failure conditions of validate_image_response.
InvalidContentType exactly when the lowercased content-type header value
(absent meaning empty) does not start with image/; PayloadTooLarge exactly
when the content type is acceptable and a present, nonempty content-length
parses with int() to a value over the 50 MiB ceiling; additionally, a
present, nonempty content-length on which int() fails makes the operation
fail with that conversion ValueError; and the operation succeeds, returning
the lowercased content type, exactly when the content type is acceptable
and the content-length is absent, empty, or parses to a value within the
ceiling. -/
theorem c5_validation_characterization (ct? cl? : Option String) :
    (validate_image_response ct? cl? = .error .invalidContentType ↔
      isPre "image/".data (pyLower (ct?.getD "")).data = false)
    ∧ (validate_image_response ct? cl? = .error .payloadTooLarge ↔
      (isPre "image/".data (pyLower (ct?.getD "")).data = true ∧
        ∃ s v, cl? = some s ∧ s ≠ "" ∧ pyInt? s = some v ∧
          v > (max_file_size : Int)))
    ∧ (validate_image_response ct? cl? = .error .malformedContentLength ↔
      (isPre "image/".data (pyLower (ct?.getD "")).data = true ∧
        ∃ s, cl? = some s ∧ s ≠ "" ∧ pyInt? s = none))
    ∧ (validate_image_response ct? cl? = .ok (pyLower (ct?.getD "")) ↔
      (isPre "image/".data (pyLower (ct?.getD "")).data = true ∧
        (cl? = none ∨ cl? = some "" ∨ ∃ s v, cl? = some s ∧ pyInt? s = some v ∧
          v ≤ (max_file_size : Int)))) := by
  unfold validate_image_response
  cases hct : isPre "image/".data (pyLower (ct?.getD "")).data with
  | false => simp [hct]
  | true =>
    cases cl? with
    | none => simp [hct]
    | some s =>
      by_cases hse : s = ""
      · subst hse; simp [hct]
      · cases hp : pyInt? s with
        | none => simp [hct, hse, hp]
        | some v =>
          by_cases hv : v > (max_file_size : Int)
          · simp [hct, hse, hp, hv]
          · simp [hct, hse, hp, hv]
            omega

/-- C5, witness. -/
theorem c5_witness :
    validate_image_response (some "text/html") none = .error .invalidContentType :=
  ((c5_validation_characterization (some "text/html") none).1).mpr (by decide)

/-! ## Collision resolution: probe injectivity and loop behaviour -/

theorem mkProbe_inj (stem sfx : List Char) {a b : Nat}
    (h : mkProbe stem sfx a = mkProbe stem sfx b) : a = b := by
  simp only [mkProbe] at h
  have hd := string_mk_inj h
  have h1 := List.append_cancel_left (List.append_cancel_right hd)
  have h2 : natDecDigits a = natDecDigits b := by injection h1
  exact natDecDigits_inj h2

theorem uniqueLoop_none (names : List String) (stem sfx : List Char) :
    ∀ fuel counter, uniqueLoop names stem sfx counter fuel = none →
      ∀ i < fuel, mkProbe stem sfx (counter + i) ∈ names := by
  intro fuel
  induction fuel with
  | zero => intro counter _ i hi; omega
  | succ fuel ih =>
    intro counter h i hi
    by_cases hm : mkProbe stem sfx counter ∈ names
    · simp only [uniqueLoop, hm, if_pos] at h
      match i with
      | 0 => simpa using hm
      | j + 1 =>
        have := ih (counter + 1) h j (by omega)
        rwa [show counter + 1 + j = counter + (j + 1) by omega] at this
    · simp [uniqueLoop, hm] at h

theorem uniqueLoop_isSome (names : List String) (stem sfx : List Char)
    (counter fuel : Nat) (hf : names.length < fuel) :
    (uniqueLoop names stem sfx counter fuel).isSome = true := by
  by_contra hns
  have hnone : uniqueLoop names stem sfx counter fuel = none :=
    Option.not_isSome_iff_eq_none.mp (by simpa using hns)
  have hall := uniqueLoop_none names stem sfx fuel counter hnone
  have hinj : Function.Injective (fun i => mkProbe stem sfx (counter + i)) := by
    intro x y hxy
    have := mkProbe_inj stem sfx hxy
    omega
  have hnodup : ((List.range fuel).map
      (fun i => mkProbe stem sfx (counter + i))).Nodup :=
    (List.nodup_range fuel).map hinj
  have hsub : ((List.range fuel).map
      (fun i => mkProbe stem sfx (counter + i))) ⊆ names := by
    intro x hx
    rcases List.mem_map.mp hx with ⟨i, hi, hix⟩
    rw [← hix]
    exact hall i (List.mem_range.mp hi)
  have hlen := (List.subperm_of_subset hnodup hsub).length_le
  simp at hlen
  omega

theorem uniqueLoop_spec (names : List String) (stem sfx : List Char) :
    ∀ fuel counter r, uniqueLoop names stem sfx counter fuel = some r →
      ∃ k, counter ≤ k ∧ r = mkProbe stem sfx k ∧ r ∉ names ∧
        ∀ j, counter ≤ j → j < k → mkProbe stem sfx j ∈ names := by
  intro fuel
  induction fuel with
  | zero => intro counter r h; simp [uniqueLoop] at h
  | succ fuel ih =>
    intro counter r h
    by_cases hm : mkProbe stem sfx counter ∈ names
    · simp only [uniqueLoop, hm, if_pos] at h
      rcases ih (counter + 1) r h with ⟨k, hk1, hk2, hk3, hk4⟩
      refine ⟨k, by omega, hk2, hk3, fun j hj1 hj2 => ?_⟩
      rcases Nat.eq_or_lt_of_le hj1 with hj | hj
      · rwa [← hj]
      · exact hk4 j (by omega) hj2
    · simp only [uniqueLoop] at h
      rw [if_neg hm] at h
      have hr : r = mkProbe stem sfx counter := by injection h with h; exact h.symm
      exact ⟨counter, Nat.le_refl _, hr, by rw [hr]; exact hm,
        fun j hj1 hj2 => by omega⟩

/-- C7. The collision-resolution loop always terminates: with the directory
holding finitely many names, any fuel exceeding their number suffices for
the probe loop to find a free name (the probes are pairwise distinct, so
they cannot all collide), and consequently get_unique_filename, which runs
the loop with fuel names.length + 1, always returns a name. -/
theorem c7_loop_terminates :
    (∀ (names : List String) (filename : String),
      (get_unique_filename names filename).isSome = true)
    ∧ (∀ (names : List String) (stem sfx : List Char) (counter fuel : Nat),
      names.length < fuel →
        (uniqueLoop names stem sfx counter fuel).isSome = true) := by
  constructor
  · intro names filename
    unfold get_unique_filename
    by_cases hm : filename ∈ names
    · simp only [hm, if_pos]
      exact uniqueLoop_isSome names _ _ 1 (names.length + 1) (by omega)
    · simp [hm]
  · intro names stem sfx counter fuel hf
    exact uniqueLoop_isSome names stem sfx counter fuel hf

/-- C7, witness. -/
theorem c7_witness : (uniqueLoop ["a"] "a".data [] 1 2).isSome = true :=
  c7_loop_terminates.2 ["a"] "a".data [] 1 2 (by decide)

/-- C6. Collision resolution returns the candidate unchanged when no file
of that name exists; otherwise it returns stem_k.ext for the least k at
least 1 whose probe name is unused; and on a directory holding photo.jpg
and photo_1.jpg the candidate photo.jpg resolves to photo_2.jpg. -/
theorem c6_collision_resolution :
    (∀ (names : List String) (filename : String),
      (filename ∉ names → get_unique_filename names filename = some filename)
      ∧ (filename ∈ names → ∃ k, 1 ≤ k ∧
          get_unique_filename names filename =
            some (mkProbe (pathStem filename.data) (pathSuffix filename.data) k)
          ∧ mkProbe (pathStem filename.data) (pathSuffix filename.data) k ∉ names
          ∧ ∀ j, 1 ≤ j → j < k →
              mkProbe (pathStem filename.data) (pathSuffix filename.data) j ∈ names))
    ∧ get_unique_filename ["photo.jpg", "photo_1.jpg"] "photo.jpg" =
        some "photo_2.jpg" := by
  constructor
  · intro names filename
    constructor
    · intro hm
      simp [get_unique_filename, hm]
    · intro hm
      have hs := uniqueLoop_isSome names (pathStem filename.data)
        (pathSuffix filename.data) 1 (names.length + 1) (by omega)
      rcases Option.isSome_iff_exists.mp hs with ⟨r, hr⟩
      rcases uniqueLoop_spec names _ _ (names.length + 1) 1 r hr with
        ⟨k, hk1, hk2, hk3, hk4⟩
      refine ⟨k, hk1, ?_, by rw [← hk2]; exact hk3, hk4⟩
      rw [get_unique_filename, if_pos hm, hr, hk2]
  · decide

/-- C6, witness. -/
theorem c6_witness :
    ∃ k, 1 ≤ k ∧
      get_unique_filename ["a.jpg"] "a.jpg" =
        some (mkProbe (pathStem "a.jpg".data) (pathSuffix "a.jpg".data) k)
      ∧ mkProbe (pathStem "a.jpg".data) (pathSuffix "a.jpg".data) k ∉ ["a.jpg"]
      ∧ ∀ j, 1 ≤ j → j < k →
          mkProbe (pathStem "a.jpg".data) (pathSuffix "a.jpg".data) j ∈ ["a.jpg"] :=
  (c6_collision_resolution.1 ["a.jpg"] "a.jpg").2 (by decide)

/-! ## Dedupe index lemmas -/

theorem lookupHash_append_some {idx : List (String × String)} {h f : String}
    (hs : lookupHash idx h = some f) (idx2 : List (String × String)) :
    lookupHash (idx ++ idx2) h = some f := by
  simp only [lookupHash] at hs ⊢
  cases hf : idx.find? (fun p => p.1 == h) with
  | none => rw [hf] at hs; simp at hs
  | some p =>
    rw [hf] at hs
    rw [List.find?_append, hf]
    simpa using hs

theorem lookupHash_append_none {idx : List (String × String)} {h : String}
    (hn : lookupHash idx h = none) (idx2 : List (String × String)) :
    lookupHash (idx ++ idx2) h = lookupHash idx2 h := by
  simp only [lookupHash] at hn ⊢
  cases hf : idx.find? (fun p => p.1 == h) with
  | some p => rw [hf] at hn; simp at hn
  | none => rw [List.find?_append, hf, Option.none_or]

theorem lookupHash_none_iff {idx : List (String × String)} {h : String} :
    lookupHash idx h = none ↔ ∀ p ∈ idx, p.1 ≠ h := by
  simp [lookupHash, List.find?_eq_none]

theorem lookupHash_singleton (h f : String) :
    lookupHash [(h, f)] h = some f := by
  simp [lookupHash]

/-! ## Anatomy of fetch_single_image on a downloadable response -/

theorem fetch_ok_anatomy (hash : List Nat → String) (url : String)
    (s : Nat) (ct cl : Option String) (body : List Nat) (w : DiskOutcome) (st : FState)
    (ctv f : String)
    (hs : ¬(400 ≤ s ∧ s < 600)) (hv : validate_image_response ct cl = .ok ctv)
    (hf : get_safe_filename url (some ctv) = some f) :
    fetch_single_image hash url (.ok s ct cl body) w st =
      match lookupHash st.downloaded_hashes (hash body) with
      | some ex => (.duplicate ex, st)
      | none =>
        match get_unique_filename (st.files.map (fun x => x.1)) f with
        | none =>
          (.unexpectedErr, ⟨st.downloaded_hashes ++ [(hash body, f)], st.files⟩)
        | some u =>
          match w with
          | .ok =>
            (.saved f u,
              ⟨st.downloaded_hashes ++ [(hash body, f)], st.files ++ [(u, body)]⟩)
          | .openError =>
            (.unexpectedErr, ⟨st.downloaded_hashes ++ [(hash body, f)], st.files⟩)
          | .writeError n =>
            (.unexpectedErr,
              ⟨st.downloaded_hashes ++ [(hash body, f)],
                st.files ++ [(u, body.take n)]⟩) := by
  cases hd : lookupHash st.downloaded_hashes (hash body) with
  | some ex => simp [fetch_single_image, hs, hv, hf, is_duplicate_content, hd]
  | none =>
    cases hug : get_unique_filename (st.files.map (fun x => x.1)) f with
    | none => simp [fetch_single_image, hs, hv, hf, is_duplicate_content, hd, hug]
    | some u =>
      cases w <;>
        simp [fetch_single_image, hs, hv, hf, is_duplicate_content, hd, hug]

/-- How one fetch_single_image step can change the dedupe index: either it
is untouched, or exactly one entry with a previously absent digest key is
appended. -/
theorem step_dh (hash : List Nat → String) (url : String) (resp : Resp)
    (w : DiskOutcome) (st : FState) :
    (fetch_single_image hash url resp w st).2.downloaded_hashes
        = st.downloaded_hashes
    ∨ ∃ hb fb, lookupHash st.downloaded_hashes hb = none ∧
        (fetch_single_image hash url resp w st).2.downloaded_hashes
          = st.downloaded_hashes ++ [(hb, fb)] := by
  match resp with
  | .timeout => left; rfl
  | .connError => left; rfl
  | .ok s ct cl body =>
    by_cases hs : 400 ≤ s ∧ s < 600
    · left; simp [fetch_single_image, hs]
    · cases hv : validate_image_response ct cl with
      | error e => left; simp [fetch_single_image, hs, hv]
      | ok ctv =>
        cases hf : get_safe_filename url (some ctv) with
        | none => left; simp [fetch_single_image, hs, hv, hf]
        | some f =>
          rw [fetch_ok_anatomy hash url s ct cl body w st ctv f hs hv hf]
          cases hd : lookupHash st.downloaded_hashes (hash body) with
          | some ex => left; rfl
          | none =>
            right
            refine ⟨hash body, f, hd, ?_⟩
            cases hug : get_unique_filename (st.files.map (fun x => x.1)) f with
            | none => rfl
            | some u => cases w <;> rfl

/-- One step never removes or rewrites an index entry: any digest already
recorded keeps its filename. -/
theorem step_preserves_lookup (hash : List Nat → String) (url : String)
    (resp : Resp) (w : DiskOutcome) (st : FState) (hkey fval : String)
    (hl : lookupHash st.downloaded_hashes hkey = some fval) :
    lookupHash (fetch_single_image hash url resp w st).2.downloaded_hashes hkey
      = some fval := by
  rcases step_dh hash url resp w st with heq | ⟨hb, fb, _, heq⟩
  · rw [heq]; exact hl
  · rw [heq]; exact lookupHash_append_some hl _

/-- One step keeps the index keys pairwise distinct. -/
theorem step_preserves_nodup (hash : List Nat → String) (url : String)
    (resp : Resp) (w : DiskOutcome) (st : FState)
    (hn : (st.downloaded_hashes.map Prod.fst).Nodup) :
    (((fetch_single_image hash url resp w st).2.downloaded_hashes).map
      Prod.fst).Nodup := by
  rcases step_dh hash url resp w st with heq | ⟨hb, fb, hnone, heq⟩
  · rw [heq]; exact hn
  · rw [heq, List.map_append]
    have hnotmem : hb ∉ st.downloaded_hashes.map Prod.fst := by
      intro hmem
      rcases List.mem_map.mp hmem with ⟨p, hp, hp1⟩
      exact lookupHash_none_iff.mp hnone p hp hp1
    simp [List.nodup_append, hn, hnotmem]

theorem runFetches_preserves (hash : List Nat → String) :
    ∀ (steps : List (String × Resp × DiskOutcome)) (st : FState),
      ((st.downloaded_hashes.map Prod.fst).Nodup →
        (((runFetches hash steps st).downloaded_hashes).map Prod.fst).Nodup)
      ∧ ∀ hkey fval, lookupHash st.downloaded_hashes hkey = some fval →
          lookupHash (runFetches hash steps st).downloaded_hashes hkey
            = some fval := by
  intro steps
  induction steps with
  | nil => exact fun st => ⟨fun hn => hn, fun _ _ hl => hl⟩
  | cons step rest ih =>
    intro st
    have hstep := ih (fetch_single_image hash step.1 step.2.1 step.2.2 st).2
    constructor
    · intro hn
      exact hstep.1 (step_preserves_nodup hash step.1 step.2.1 step.2.2 st hn)
    · intro hkey fval hl
      exact hstep.2 hkey fval
        (step_preserves_lookup hash step.1 step.2.1 step.2.2 st hkey fval hl)

/-- C2. First part: if a fetch downloads a payload (acceptable status,
passing validation, resolvable filename) whose digest is not yet recorded,
then a second fetch of a byte-identical payload (also reaching the dedupe
check) is reported as a duplicate of the filename recorded for the first
and leaves the state, in particular the saved files, untouched. Second
part: over any sequence of fetches, the index maps each digest to at most
one filename (keys stay pairwise distinct) and an entry once recorded is
never rewritten: first write wins. -/
theorem c2_duplicate_detection :
    (∀ (hash : List Nat → String) (st : FState) (url1 url2 : String)
        (s1 s2 : Nat) (ct1 ct2 cl1 cl2 : Option String) (body : List Nat)
        (w1 w2 : DiskOutcome) (ctv1 ctv2 f1 f2 : String),
      ¬(400 ≤ s1 ∧ s1 < 600) → validate_image_response ct1 cl1 = .ok ctv1 →
      get_safe_filename url1 (some ctv1) = some f1 →
      ¬(400 ≤ s2 ∧ s2 < 600) → validate_image_response ct2 cl2 = .ok ctv2 →
      get_safe_filename url2 (some ctv2) = some f2 →
      lookupHash st.downloaded_hashes (hash body) = none →
      fetch_single_image hash url2 (.ok s2 ct2 cl2 body) w2
          (fetch_single_image hash url1 (.ok s1 ct1 cl1 body) w1 st).2
        = (.duplicate f1,
            (fetch_single_image hash url1 (.ok s1 ct1 cl1 body) w1 st).2))
    ∧ (∀ (hash : List Nat → String) (steps : List (String × Resp × DiskOutcome))
        (st : FState) (hkey fval : String),
      (st.downloaded_hashes.map Prod.fst).Nodup →
      lookupHash st.downloaded_hashes hkey = some fval →
      lookupHash (runFetches hash steps st).downloaded_hashes hkey = some fval
      ∧ (((runFetches hash steps st).downloaded_hashes).map Prod.fst).Nodup) := by
  constructor
  · intro hash st url1 url2 s1 s2 ct1 ct2 cl1 cl2 body w1 w2 ctv1 ctv2 f1 f2
      h1s h1v h1f h2s h2v h2f hd
    have ha1 := fetch_ok_anatomy hash url1 s1 ct1 cl1 body w1 st ctv1 f1 h1s h1v h1f
    have hdh : (fetch_single_image hash url1 (.ok s1 ct1 cl1 body) w1 st).2.downloaded_hashes
        = st.downloaded_hashes ++ [(hash body, f1)] := by
      rw [ha1, hd]
      cases hug : get_unique_filename (st.files.map (fun x => x.1)) f1 with
      | none => rfl
      | some u => cases w1 <;> rfl
    have hl2 : lookupHash
        (fetch_single_image hash url1 (.ok s1 ct1 cl1 body) w1 st).2.downloaded_hashes
        (hash body) = some f1 := by
      rw [hdh, lookupHash_append_none hd]
      exact lookupHash_singleton _ _
    rw [fetch_ok_anatomy hash url2 s2 ct2 cl2 body w2 _ ctv2 f2 h2s h2v h2f, hl2]
  · intro hash steps st hkey fval hn hl
    exact ⟨(runFetches_preserves hash steps st).2 hkey fval hl,
      (runFetches_preserves hash steps st).1 hn⟩

/-- C2, witness: two identical 2-byte payloads from different URLs; the
second fetch reports a duplicate of a.png and changes nothing. -/
theorem c2_witness :
    fetch_single_image (fun _ => "h") "http://y/b.png"
        (.ok 200 (some "image/png") none [1, 2]) .ok
        (fetch_single_image (fun _ => "h") "http://x/a.png"
          (.ok 200 (some "image/png") none [1, 2]) .ok ⟨[], []⟩).2
      = (.duplicate "a.png",
          (fetch_single_image (fun _ => "h") "http://x/a.png"
            (.ok 200 (some "image/png") none [1, 2]) .ok ⟨[], []⟩).2) :=
  c2_duplicate_detection.1 (fun _ => "h") ⟨[], []⟩ "http://x/a.png" "http://y/b.png"
    200 200 (some "image/png") (some "image/png") none none [1, 2] .ok .ok
    "image/png" "image/png" "a.png" "b.png"
    (by decide) (by decide) (by decide) (by decide) (by decide) (by decide)
    (by decide)

/-- C4, counterexample. A disk write that raises after open (the blanket
except Exception case) yields the false outcome, yet the dedupe index has
been mutated: the entry was inserted by is_duplicate_content before the
write was attempted. (The open call had already created the file, so a
partial file remains on disk as well.) -/
theorem c4_counterexample :
    outcomeSuccess (fetch_single_image (fun _ => "h") "http://x/c.png"
        (.ok 200 (some "image/png") none [9]) (.writeError 0) ⟨[], []⟩).1 = false
    ∧ (fetch_single_image (fun _ => "h") "http://x/c.png"
        (.ok 200 (some "image/png") none [9]) (.writeError 0)
        ⟨[], []⟩).2.downloaded_hashes
      = [("h", "c.png")]
    ∧ (fetch_single_image (fun _ => "h") "http://x/c.png"
        (.ok 200 (some "image/png") none [9]) (.writeError 0) ⟨[], []⟩).2.files
      = [("c.png", [])] :=
  ⟨by decide, by decide, by decide⟩

/-- C4, amended. Per invocation at most one file is created on disk; the
index is unchanged on every outcome reached before the dedupe check
(timeout, connection error, HTTP error, ValueError) and on a duplicate;
and it gains exactly one entry whenever novel content reaches the dedupe
check — on the saved outcome, but also on the unexpected-error outcome of
a disk step that fails afterwards, where the outcome is false and yet the
entry (inserted by is_duplicate_content before the write) remains. -/
theorem c4_side_effects (hash : List Nat → String) (url : String)
    (resp : Resp) (w : DiskOutcome) (st : FState) :
    ((fetch_single_image hash url resp w st).2.files = st.files
      ∨ ∃ e, (fetch_single_image hash url resp w st).2.files = st.files ++ [e])
    ∧ (((fetch_single_image hash url resp w st).1 = .timeoutErr
        ∨ (fetch_single_image hash url resp w st).1 = .connErr
        ∨ (∃ sc, (fetch_single_image hash url resp w st).1 = .httpErr sc)
        ∨ (fetch_single_image hash url resp w st).1 = .valueErr
        ∨ (∃ ex, (fetch_single_image hash url resp w st).1 = .duplicate ex)) →
      (fetch_single_image hash url resp w st).2.downloaded_hashes
        = st.downloaded_hashes)
    ∧ ((fetch_single_image hash url resp w st).1 = .unexpectedErr →
      ∃ e, (fetch_single_image hash url resp w st).2.downloaded_hashes
        = st.downloaded_hashes ++ [e])
    ∧ ((∃ fn u, (fetch_single_image hash url resp w st).1 = .saved fn u) →
      ∃ e, (fetch_single_image hash url resp w st).2.downloaded_hashes
        = st.downloaded_hashes ++ [e]) := by
  match resp with
  | .timeout =>
    exact ⟨Or.inl rfl, fun _ => rfl, fun h => Outcome.noConfusion h,
      fun h => by rcases h with ⟨fn, u, hh⟩; exact Outcome.noConfusion hh⟩
  | .connError =>
    exact ⟨Or.inl rfl, fun _ => rfl, fun h => Outcome.noConfusion h,
      fun h => by rcases h with ⟨fn, u, hh⟩; exact Outcome.noConfusion hh⟩
  | .ok s ct cl body =>
    by_cases hs : 400 ≤ s ∧ s < 600
    · have he : fetch_single_image hash url (.ok s ct cl body) w st
          = (.httpErr s, st) := by simp [fetch_single_image, hs]
      rw [he]
      exact ⟨Or.inl rfl, fun _ => rfl, fun h => Outcome.noConfusion h,
        fun h => by rcases h with ⟨fn, u, hh⟩; exact Outcome.noConfusion hh⟩
    · cases hv : validate_image_response ct cl with
      | error e =>
        have he : fetch_single_image hash url (.ok s ct cl body) w st
            = (.valueErr, st) := by simp [fetch_single_image, hs, hv]
        rw [he]
        exact ⟨Or.inl rfl, fun _ => rfl, fun h => Outcome.noConfusion h,
          fun h => by rcases h with ⟨fn, u, hh⟩; exact Outcome.noConfusion hh⟩
      | ok ctv =>
        cases hf : get_safe_filename url (some ctv) with
        | none =>
          have he : fetch_single_image hash url (.ok s ct cl body) w st
              = (.valueErr, st) := by simp [fetch_single_image, hs, hv, hf]
          rw [he]
          exact ⟨Or.inl rfl, fun _ => rfl, fun h => Outcome.noConfusion h,
            fun h => by rcases h with ⟨fn, u, hh⟩; exact Outcome.noConfusion hh⟩
        | some f =>
          rw [fetch_ok_anatomy hash url s ct cl body w st ctv f hs hv hf]
          cases hd : lookupHash st.downloaded_hashes (hash body) with
          | some ex =>
            exact ⟨Or.inl rfl, fun _ => rfl, fun h => Outcome.noConfusion h,
              fun h => by rcases h with ⟨fn, u, hh⟩; exact Outcome.noConfusion hh⟩
          | none =>
            cases hug : get_unique_filename (st.files.map (fun x => x.1)) f with
            | none =>
              refine ⟨Or.inl rfl, fun h => ?_, fun _ => ⟨_, rfl⟩, fun _ => ⟨_, rfl⟩⟩
              rcases h with h | h | ⟨sc, h⟩ | h | ⟨ex, h⟩ <;> exact Outcome.noConfusion h
            | some u =>
              cases w with
              | ok =>
                refine ⟨Or.inr ⟨(u, body), rfl⟩, fun h => ?_,
                  fun h => Outcome.noConfusion h, fun _ => ⟨_, rfl⟩⟩
                rcases h with h | h | ⟨sc, h⟩ | h | ⟨ex, h⟩ <;>
                  exact Outcome.noConfusion h
              | openError =>
                refine ⟨Or.inl rfl, fun h => ?_, fun _ => ⟨_, rfl⟩, fun h => ?_⟩
                · rcases h with h | h | ⟨sc, h⟩ | h | ⟨ex, h⟩ <;>
                    exact Outcome.noConfusion h
                · rcases h with ⟨fn, uu, hh⟩; exact Outcome.noConfusion hh
              | writeError n =>
                refine ⟨Or.inr ⟨(u, body.take n), rfl⟩, fun h => ?_,
                  fun _ => ⟨_, rfl⟩, fun h => ?_⟩
                · rcases h with h | h | ⟨sc, h⟩ | h | ⟨ex, h⟩ <;>
                    exact Outcome.noConfusion h
                · rcases h with ⟨fn, uu, hh⟩; exact Outcome.noConfusion hh

/-- C4, witness. -/
theorem c4_witness :
    (fetch_single_image (fun _ => "h") "u" .timeout .ok ⟨[], []⟩).2.downloaded_hashes
      = [] :=
  (c4_side_effects (fun _ => "h") "u" .timeout .ok ⟨[], []⟩).2.1 (Or.inl (by decide))

/-- C10. On a successful fetch of novel content whose candidate filename
collides with an existing file, the index records the candidate filename
(the one passed to is_duplicate_content before collision resolution) while
the file is saved under the probe name, which differs from the candidate:
any later duplicate report for that digest names a file other than the one
on disk. -/
theorem c10_index_names_candidate (hash : List Nat → String) (st : FState)
    (url : String) (s : Nat) (ct cl : Option String) (body : List Nat)
    (ctv f : String)
    (hs : ¬(400 ≤ s ∧ s < 600)) (hv : validate_image_response ct cl = .ok ctv)
    (hf : get_safe_filename url (some ctv) = some f)
    (hd : lookupHash st.downloaded_hashes (hash body) = none)
    (hcol : f ∈ st.files.map (fun x => x.1)) :
    (fetch_single_image hash url (.ok s ct cl body) .ok st).2.downloaded_hashes
      = st.downloaded_hashes ++ [(hash body, f)]
    ∧ ∃ k, 1 ≤ k ∧
      (fetch_single_image hash url (.ok s ct cl body) .ok st).1
        = .saved f (mkProbe (pathStem f.data) (pathSuffix f.data) k)
      ∧ (fetch_single_image hash url (.ok s ct cl body) .ok st).2.files
        = st.files ++ [(mkProbe (pathStem f.data) (pathSuffix f.data) k, body)]
      ∧ mkProbe (pathStem f.data) (pathSuffix f.data) k ≠ f := by
  have hsome := uniqueLoop_isSome (st.files.map (fun x => x.1))
    (pathStem f.data) (pathSuffix f.data) 1
    ((st.files.map (fun x => x.1)).length + 1) (by omega)
  rcases Option.isSome_iff_exists.mp hsome with ⟨r, hr⟩
  rcases uniqueLoop_spec (st.files.map (fun x => x.1)) _ _ _ 1 r hr with
    ⟨k, hk1, hk2, hk3, _⟩
  have hug : get_unique_filename (st.files.map (fun x => x.1)) f = some r := by
    rw [get_unique_filename, if_pos hcol, hr]
  have hfetch : fetch_single_image hash url (.ok s ct cl body) .ok st
      = (.saved f r,
          ⟨st.downloaded_hashes ++ [(hash body, f)], st.files ++ [(r, body)]⟩) := by
    rw [fetch_ok_anatomy hash url s ct cl body .ok st ctv f hs hv hf, hd, hug]
  refine ⟨by rw [hfetch], k, hk1, by rw [hfetch, hk2], by rw [hfetch, hk2],
    fun he => hk3 ?_⟩
  rw [hk2, he]
  exact hcol

/-- C10, witness: candidate a.jpg collides with the existing a.jpg; the
index records a.jpg while the file is saved as a_1.jpg. -/
theorem c10_witness :
    (fetch_single_image (fun _ => "h") "http://x/a.jpg"
        (.ok 200 (some "image/png") none [9]) .ok
        ⟨[], [("a.jpg", [1])]⟩).2.downloaded_hashes = [("h", "a.jpg")]
    ∧ ∃ k, 1 ≤ k ∧
      (fetch_single_image (fun _ => "h") "http://x/a.jpg"
          (.ok 200 (some "image/png") none [9]) .ok ⟨[], [("a.jpg", [1])]⟩).1
        = .saved "a.jpg" (mkProbe (pathStem "a.jpg".data) (pathSuffix "a.jpg".data) k)
      ∧ (fetch_single_image (fun _ => "h") "http://x/a.jpg"
          (.ok 200 (some "image/png") none [9]) .ok ⟨[], [("a.jpg", [1])]⟩).2.files
        = [("a.jpg", [1])] ++
            [(mkProbe (pathStem "a.jpg".data) (pathSuffix "a.jpg".data) k, [9])]
      ∧ mkProbe (pathStem "a.jpg".data) (pathSuffix "a.jpg".data) k ≠ "a.jpg" :=
  c10_index_names_candidate (fun _ => "h") ⟨[], [("a.jpg", [1])]⟩ "http://x/a.jpg"
    200 (some "image/png") none [9] "image/png" "a.jpg"
    (by decide) (by decide) (by decide) (by decide) (by decide)

/-! ## Batch loop lemmas -/

theorem foldl_attempts (hash : List Nat → String) (net : String → Resp × DiskOutcome) :
    ∀ (urls : List String) (acc : Nat × FState × Nat),
      (urls.foldl (fetchStep hash net) acc).2.2
        = acc.2.2 + urls.countP (fun u => !(pyStrip u == "")) := by
  intro urls
  induction urls with
  | nil => intro acc; simp
  | cons u rest ih =>
    intro acc
    rw [List.foldl_cons, ih]
    by_cases hu : pyStrip u = ""
    · simp [fetchStep, hu, List.countP_cons]
    · simp only [fetchStep, hu, if_neg, List.countP_cons]
      simp [hu]
      omega

/-- C3, counterexample. On the input consisting of the empty string, the
split produces the one-element list holding the empty string, so total is
1, not 0 (while indeed no fetch is attempted and the state is unchanged). -/
theorem c3_counterexample :
    fetch_images (fun _ => "h") (fun _ => (.timeout, .ok)) ⟨[], []⟩ (.inl "")
      = ((0, 1), ⟨[], []⟩, 0) := by
  decide

/-- C3, amended. totalCount is the length of the split url list including
entries that are empty after trimming; the attempt counter equals the
number of entries nonempty after trimming (only those reach
fetch_single_image); and for the empty-string input the result is
successCount 0 and total 1 with zero attempts and no state change. -/
theorem c3_batch_totals (hash : List Nat → String) (net : String → Resp × DiskOutcome)
    (st : FState) (input : String ⊕ List String) :
    (fetch_images hash net st input).1.2 = (inputUrls input).length
    ∧ (fetch_images hash net st input).2.2
      = (inputUrls input).countP (fun u => !(pyStrip u == ""))
    ∧ (input = .inl "" → fetch_images hash net st input = ((0, 1), st, 0)) := by
  refine ⟨rfl, ?_, ?_⟩
  · simpa using foldl_attempts hash net (inputUrls input) (0, st, 0)
  · intro h
    subst h
    rfl

/-- C3, witness: the input a,,b has three entries, of which two are
attempted. -/
theorem c3_witness :
    (fetch_images (fun _ => "h") (fun _ => (.timeout, .ok)) ⟨[], []⟩
      (.inl "a,,b")).1.2 = 3
    ∧ (fetch_images (fun _ => "h") (fun _ => (.timeout, .ok)) ⟨[], []⟩
      (.inl "a,,b")).2.2 = 2 := by
  have h := c3_batch_totals (fun _ => "h") (fun _ => (.timeout, .ok)) ⟨[], []⟩
    (.inl "a,,b")
  exact ⟨by rw [h.1]; decide, by rw [h.2.1]; decide⟩

/-- C8. Every failure mode is caught inside fetch_single_image and mapped
to its handler outcome with the false result and (before the dedupe check)
an unchanged state: timeout, connection error, 4xx or 5xx status, and
validation ValueError; the true result arises only from the saved outcome;
and the batch attempts exactly the nonempty urls, a count independent of
any outcome, so failures never abort the remaining urls. -/
theorem c8_failures_contained :
    (∀ (hash : List Nat → String) (url : String) (w : DiskOutcome) (st : FState),
      fetch_single_image hash url .timeout w st = (.timeoutErr, st))
    ∧ (∀ (hash : List Nat → String) (url : String) (w : DiskOutcome) (st : FState),
      fetch_single_image hash url .connError w st = (.connErr, st))
    ∧ (∀ (hash : List Nat → String) (url : String) (w : DiskOutcome) (st : FState)
        (s : Nat) (ct cl : Option String) (body : List Nat),
      400 ≤ s → s < 600 →
        fetch_single_image hash url (.ok s ct cl body) w st = (.httpErr s, st))
    ∧ (∀ (hash : List Nat → String) (url : String) (w : DiskOutcome) (st : FState)
        (s : Nat) (ct cl : Option String) (body : List Nat)
        (e : ValidationError),
      ¬(400 ≤ s ∧ s < 600) → validate_image_response ct cl = .error e →
        fetch_single_image hash url (.ok s ct cl body) w st = (.valueErr, st))
    ∧ (∀ (hash : List Nat → String) (url : String) (resp : Resp) (w : DiskOutcome)
        (st : FState),
      outcomeSuccess (fetch_single_image hash url resp w st).1 = true →
        ∃ fn u, (fetch_single_image hash url resp w st).1 = .saved fn u)
    ∧ (∀ (hash : List Nat → String) (net : String → Resp × DiskOutcome) (st : FState)
        (input : String ⊕ List String),
      (fetch_images hash net st input).2.2
        = (inputUrls input).countP (fun u => !(pyStrip u == ""))) := by
  refine ⟨fun _ _ _ _ => rfl, fun _ _ _ _ => rfl, ?_, ?_, ?_, ?_⟩
  · intro hash url w st s ct cl body h1 h2
    simp [fetch_single_image, h1, h2]
  · intro hash url w st s ct cl body e hs hv
    simp [fetch_single_image, hs, hv]
  · intro hash url resp w st h
    cases ho : (fetch_single_image hash url resp w st).1 with
    | saved fn u => exact ⟨fn, u, rfl⟩
    | _ => rw [ho] at h; simp [outcomeSuccess] at h
  · intro hash net st input
    simpa using foldl_attempts hash net (inputUrls input) (0, st, 0)

/-- C8, witness. -/
theorem c8_witness :
    fetch_single_image (fun _ => "h") "u" (.ok 404 none none []) .ok ⟨[], []⟩
      = (.httpErr 404, ⟨[], []⟩) :=
  c8_failures_contained.2.2.1 (fun _ => "h") "u" .ok ⟨[], []⟩ 404 none none []
    (by decide) (by decide)

end ImageFetcher

